import Mathlib

/-!
# Verification of the codeflash rule-based diagnostic engine

Shallow embedding of `codeflash/cost_analyzer.py` and `codeflash/optimizer.py`.

The engine walks Python abstract syntax trees (`ast.walk`, which is a
breadth-first traversal using a FIFO queue) and emits diagnostic dictionaries.
We embed the syntax trees as a tagged-variant tree type `Node` whose
constructors are exactly the `ast` classes the engine's `isinstance` tests
distinguish (`Import`, `ImportFrom`, `Assign`, `AugAssign`, `For`, `ListComp`,
`Compare`); every other AST class is collapsed into `Node.other`, which is
faithful because no check inspects any other class.  Line numbers are the
1-based `lineno` attributes (the root `Module` node has no `lineno` and is
given an arbitrary one, which no check ever reads).

File reading, path expansion (`Path.rglob`) and `ast.parse` are external
collaborators; a `SourceUnit` carries the parse outcome as an
`Option Node` (`none` = `SyntaxError` or any other exception swallowed by
`_analyze_file`).
-/

/-- The `ast.operator` of an augmented assignment: the checks only distinguish
`ast.Add` from everything else. -/
inductive AOp : Type where
  | add : AOp
  | otherOp : AOp
deriving DecidableEq, Repr

/-- The `ast.cmpop` of a comparison: the checks only distinguish `ast.In`
(`ast.NotIn` is a distinct class and matches nothing). -/
inductive COp : Type where
  | inOp : COp
  | otherCmp : COp
deriving DecidableEq, Repr

mutual
/-- A Python AST node, restricted to the shape the engine observes: a kind
tag, the `lineno`, the per-kind payload, and the child nodes in
`ast.iter_child_nodes` order. -/
inductive Node : Type where
  | imp : Nat → List String → NodeList → Node
  | impFrom : Nat → Option String → NodeList → Node
  | assign : Nat → NodeList → Node
  | augAssign : Nat → AOp → NodeList → Node
  | forStmt : Nat → NodeList → Node
  | listComp : Nat → NodeList → Node
  | compare : Nat → List COp → NodeList → Node
  | other : Nat → NodeList → Node

/-- Child lists, mutually inductive with `Node` so that tree recursion is
structural (and hence computable by the kernel). -/
inductive NodeList : Type where
  | nil : NodeList
  | cons : Node → NodeList → NodeList
end

/-- Convert a child list to a `List Node`. -/
def NodeList.toList : NodeList → List Node
  | .nil => []
  | .cons n ns => n :: ns.toList

/-- Build a `NodeList` from a `List Node` (used to write concrete trees). -/
def nl : List Node → NodeList
  | [] => .nil
  | n :: ns => .cons n (nl ns)

/-- The children of a node (`ast.iter_child_nodes`). -/
def Node.children : Node → List Node
  | .imp _ _ cs => cs.toList
  | .impFrom _ _ cs => cs.toList
  | .assign _ cs => cs.toList
  | .augAssign _ _ cs => cs.toList
  | .forStmt _ cs => cs.toList
  | .listComp _ cs => cs.toList
  | .compare _ _ cs => cs.toList
  | .other _ cs => cs.toList

mutual
/-- Height of a tree: `1 +` the maximal height of the children. -/
def Node.depth : Node → Nat
  | .imp _ _ cs => 1 + cs.depthList
  | .impFrom _ _ cs => 1 + cs.depthList
  | .assign _ cs => 1 + cs.depthList
  | .augAssign _ _ cs => 1 + cs.depthList
  | .forStmt _ cs => 1 + cs.depthList
  | .listComp _ cs => 1 + cs.depthList
  | .compare _ _ cs => 1 + cs.depthList
  | .other _ cs => 1 + cs.depthList

/-- Maximal height of the trees in a child list. -/
def NodeList.depthList : NodeList → Nat
  | .nil => 0
  | .cons n ns => max n.depth ns.depthList
end

/-- Maximal height of a list of trees. -/
def depthOf : List Node → Nat
  | [] => 0
  | n :: ns => max n.depth (depthOf ns)

/-- Runs `fuel` rounds of breadth-first expansion of a queue of trees: emit the
whole queue (one BFS level), then recurse on the concatenation of all child
lists.  With `fuel ≥ depthOf q` this is exactly the sequence produced by
Python's `ast.walk` FIFO loop started on queue `q`. -/
def bfs : Nat → List Node → List Node
  | 0, _ => []
  | fuel + 1, q => q ++ bfs fuel (q.flatMap Node.children)

/-- Python `ast.walk(n)`: breadth-first traversal of the tree rooted at `n`. -/
def walk (n : Node) : List Node := bfs n.depth [n]

/-! ## Diagnostic model

A diagnostic is one of the dictionaries appended to `self.results`; the
fields are exactly the dictionary keys (`library` is present only on
heavy-import diagnostics, and is modelled as an `Option`). -/

/-- One optimization-opportunity dictionary. -/
structure Diagnostic : Type where
  file : String
  line : Nat
  issue : String
  impact : String
  suggestion : String
  type : String
  library : Option String := none
deriving DecidableEq, Repr

/-- A source unit handed to `_analyze_file`: its path and the outcome of
`ast.parse` (`none` when parsing raised, i.e. the `except` branches run). -/
structure SourceUnit : Type where
  file : String
  parsed : Option Node

/-- Python `s.split('.')`: split at every `'.'`, keeping empty pieces
(`"".split('.') == [""]`).  This is extensionally `String.splitOn "."`, but
implemented by structural recursion on the character list so that the kernel
can evaluate it (needed for `decide`/`rfl` on concrete inputs). -/
def splitOnDotAux : List Char → List Char → List String
  | [], acc => [String.mk acc.reverse]
  | c :: cs, acc =>
    if c = '.' then String.mk acc.reverse :: splitOnDotAux cs []
    else splitOnDotAux cs (c :: acc)

/-- Python `s.split('.')`. -/
def splitOnDot (s : String) : List String := splitOnDotAux s.data []

/-- Python `lib_name.split('.')[0]` (the spec's "top-level name");
`splitOnDot` never returns an empty list, so the `[]` case is dead. -/
def firstSegment (name : String) : String :=
  match splitOnDot name with
  | [] => ""
  | s :: _ => s

/-- Python `c in s` for a single character `c` (kernel-computable, unlike
`String.contains`). -/
def strContains (s : String) (c : Char) : Bool := s.data.contains c

namespace CostAnalyzer

/-- Metadata for one entry of `self.heavy_libraries`. -/
structure LibraryInfo : Type where
  weight : String
  alternatives : List String
  useCases : List (String × String)
deriving DecidableEq, Repr

/-- The table `self.heavy_libraries` from `CostAnalyzer.__init__` — identical for every
instance, so modelled as a constant association list. -/
def heavy_libraries : List (String × LibraryInfo) :=
  [("pandas",
    { weight := "heavy",
      alternatives := ["csv (stdlib)", "polars (lighter & faster)"],
      useCases :=
        [("read_csv", "For simple CSV reading, use csv.DictReader from stdlib"),
         ("DataFrame", "For large datasets, consider polars or Apache Arrow")] }),
   ("numpy",
    { weight := "medium",
      alternatives := ["array (stdlib) for simple arrays"],
      useCases := [("array", "For simple arrays without complex operations")] }),
   ("requests",
    { weight := "medium",
      alternatives := ["urllib (stdlib) for simple HTTP requests"],
      useCases := [] })]

/-- Embeds `CostAnalyzer._check_library_usage`: split the dotted name, look the first
segment up in the table, and emit one import diagnostic on a hit. -/
def check_library_usage (file : String) (lib_name : String) (line_no : Nat) :
    List Diagnostic :=
  let base_lib := firstSegment lib_name
  match heavy_libraries.lookup base_lib with
  | some lib_info =>
      [{ file := file
         line := line_no
         issue := "Heavy import: " ++ lib_name
         impact := "Increases memory footprint and cold-start time (Library is "
                     ++ lib_info.weight ++ ")"
         suggestion := "Consider lighter alternatives: "
                     ++ String.intercalate ", " lib_info.alternatives
         type := "import_optimization"
         library := some base_lib }]
  | none => []

/-- Embeds `CostAnalyzer._check_imports`: for every `ast.Import` node, one lookup per
alias; for every `ast.ImportFrom` with a non-`None` module, one lookup. -/
def check_imports (file : String) (tree : Node) : List Diagnostic :=
  (walk tree).flatMap fun n =>
    match n with
    | .imp lineno names _ =>
        names.flatMap fun nm => check_library_usage file nm lineno
    | .impFrom lineno (some m) _ => check_library_usage file m lineno
    | _ => []

/-- Embeds `CostAnalyzer._check_data_structures`: one diagnostic per `ast.ListComp`;
the `ast.In` branch of the `ast.Compare` case is `pass` and emits nothing. -/
def check_data_structures (file : String) (tree : Node) : List Diagnostic :=
  (walk tree).flatMap fun n =>
    match n with
    | .listComp lineno _ =>
        [{ file := file
           line := lineno
           issue := "List comprehension could be a generator"
           impact := "Stores entire list in memory (O(n) space)"
           suggestion := "Use generator expression () instead of [] if only iterating once"
           type := "data_structure" }]
    | .compare _ _ _ => []
    | _ => []

/-- Embeds `CostAnalyzer._check_memory_patterns`: for every `ast.For` node, walk its
whole subtree again and emit one diagnostic per `ast.AugAssign` whose operator
is `ast.Add`. -/
def check_memory_patterns (file : String) (tree : Node) : List Diagnostic :=
  (walk tree).flatMap fun n =>
    match n with
    | .forStmt lineno cs =>
        (walk (.forStmt lineno cs)).flatMap fun child =>
          match child with
          | .augAssign clineno .add _ =>
              [{ file := file
                 line := clineno
                 issue := "Potential string concatenation in loop"
                 impact := "Creates new string objects each iteration (O(n²) memory)"
                 suggestion := "Use list.append() and \"\".join() for better memory efficiency"
                 type := "memory_pattern" }]
          | _ => []
    | _ => []

/-- Embeds `CostAnalyzer._analyze_file`: on a successful parse run the three checks
(in program order, appending to `self.results`); on `SyntaxError` or any
other exception both `except` branches are `pass`, contributing nothing and
recording nothing. -/
def analyze_file (file : String) (parsed : Option Node) : List Diagnostic :=
  match parsed with
  | none => []
  | some tree =>
      check_imports file tree ++ check_data_structures file tree
        ++ check_memory_patterns file tree

/-- The mutable state of a `CostAnalyzer` instance: the source units its
`self.path` resolves to (file-set resolution is the external collaborator)
and the accumulated `self.results`. -/
structure State : Type where
  units : List SourceUnit
  results : List Diagnostic

/-- Embeds `CostAnalyzer.analyze`: run `_analyze_file` on every unit, appending to
`self.results`, and return `self.results`. -/
def analyze (s : State) : State × List Diagnostic :=
  let r := s.units.foldl (fun acc u => acc ++ analyze_file u.file u.parsed) s.results
  ({ s with results := r }, r)

end CostAnalyzer

namespace CodeOptimizer

/-- Embeds `CodeOptimizer._check_speed_optimizations`: one diagnostic per `ast.In`
operator of every `ast.Compare` node, at the comparison's line. -/
def check_speed_optimizations (file : String) (tree : Node) : List Diagnostic :=
  (walk tree).flatMap fun n =>
    match n with
    | .compare lineno ops _ =>
        ops.flatMap fun op =>
          match op with
          | .inOp =>
              [{ file := file
                 line := lineno
                 issue := "List membership test (O(n) complexity)"
                 impact := "Slower lookups for large lists"
                 suggestion := "Convert to set for O(1) lookup if checking membership frequently"
                 type := "speed" }]
          | .otherCmp => []
    | _ => []

/-- Embeds `CodeOptimizer._check_memory_optimizations`: one diagnostic per
`ast.ListComp` node. -/
def check_memory_optimizations (file : String) (tree : Node) : List Diagnostic :=
  (walk tree).flatMap fun n =>
    match n with
    | .listComp lineno _ =>
        [{ file := file
           line := lineno
           issue := "List comprehension stores all items in memory"
           impact := "High memory usage for large datasets"
           suggestion := "Use generator expression if items are processed once"
           type := "memory" }]
    | _ => []

/-- Embeds `CodeOptimizer._analyze_file`: parse, then dispatch on `self.goal`; a goal
other than `"speed"`/`"memory"` selects no check at all; any exception is
swallowed by the blanket `except` clause. -/
def analyze_file (goal file : String) (parsed : Option Node) : List Diagnostic :=
  match parsed with
  | none => []
  | some tree =>
      if goal = "speed" then check_speed_optimizations file tree
      else if goal = "memory" then check_memory_optimizations file tree
      else []

/-- The mutable state of a `CodeOptimizer` instance. -/
structure State : Type where
  goal : String
  units : List SourceUnit
  results : List Diagnostic

/-- Embeds `CodeOptimizer.analyze`. -/
def analyze (s : State) : State × List Diagnostic :=
  let r := s.units.foldl (fun acc u => acc ++ analyze_file s.goal u.file u.parsed) s.results
  ({ s with results := r }, r)

/-- The method `CodeOptimizer.apply_optimizations` is a placeholder returning
`len(results)`; it performs no I/O at all. -/
def apply_optimizations (results : List Diagnostic) : Nat := results.length

end CodeOptimizer

/-! ## The `CostAnalyzer.apply_optimizations` step

The method only *reads* files: the write-back at the end of the per-file loop
is commented out in the source ("for now, we're not actually modifying to
keep it safe"), so the filesystem is threaded through unchanged.  Python list
indexing admits negative indices, and `lines[line_idx]` raises an uncaught
`IndexError` when the index is out of range; we model that by `Option`
(`none` = the exception propagates to the caller). -/

/-- The readable filesystem: `f.readlines()` for each path. -/
abbrev Fs : Type := String → List String

/-- Python `lines[idx]` for `idx : int`: negative indices count from the end;
out-of-range raises (`none`). -/
def pyGet (lines : List String) (idx : Int) : Option String :=
  if idx < 0 then
    let j : Int := (lines.length : Int) + idx
    if j < 0 then none else lines.get? j.toNat
  else lines.get? idx.toNat

namespace CostAnalyzer

/-- The body of the inner loop of `apply_optimizations` for one result:
the count it contributes (`none` = `IndexError` from `lines[line_idx]`). -/
def apply_one (lines : List String) (r : Diagnostic) : Option Nat :=
  if r.type = "data_structure" then
    let line_idx : Int := (r.line : Int) - 1
    if line_idx < (lines.length : Int) then
      match pyGet lines line_idx with
      | none => none
      | some line =>
          some (if line.contains '[' && line.contains ']' then 1 else 0)
    else some 0
  else some 0

/-- The inner loop over one file's (reverse-sorted) results. -/
def apply_file (lines : List String) : List Diagnostic → Option Nat
  | [] => some 0
  | r :: rs =>
    match apply_one lines r with
    | none => none
    | some a =>
      match apply_file lines rs with
      | none => none
      | some b => some (a + b)

/-- Stable insertion into a list sorted by line number descending
(`file_results.sort(key=lambda x: x['line'], reverse=True)`). -/
def insert_desc (r : Diagnostic) : List Diagnostic → List Diagnostic
  | [] => [r]
  | x :: xs => if x.line < r.line then r :: x :: xs else x :: insert_desc r xs

/-- Sort a file's results by line number descending. -/
def sort_by_line_desc (l : List Diagnostic) : List Diagnostic :=
  l.foldl (fun acc r => insert_desc r acc) []

/-- The keys of `files_to_optimize` in insertion order: each result's file,
first occurrences first. -/
def file_order (results : List Diagnostic) : List String :=
  (results.map (·.file)).eraseDups

/-- The outer loop of `apply_optimizations` over the grouped files. -/
def apply_files (fs : Fs) (results : List Diagnostic) : List String → Option Nat
  | [] => some 0
  | fp :: fps =>
    let lines := fs fp
    let file_results := sort_by_line_desc (results.filter (fun r => r.file == fp))
    match apply_file lines file_results with
    | none => none
    | some a =>
      match apply_files fs results fps with
      | none => none
      | some b => some (a + b)

/-- Embeds `CostAnalyzer.apply_optimizations`: group the results by file, reverse
sort each group by line, count the `data_structure` results whose cited line
exists and contains both `[` and `]`, and return the count.  The filesystem
is returned unchanged (the write is commented out in the source); `none`
models an uncaught exception. -/
def apply_optimizations (fs : Fs) (results : List Diagnostic) :
    Option (Nat × Fs) :=
  match apply_files fs results (file_order results) with
  | none => none
  | some n => some (n, fs)

end CostAnalyzer

/-! ## Specification-side extraction functions

These definitions phrase what the spec quantifies over (imports present in
the KnowledgeTable, comprehension lines, containment-test lines, …) directly
on the embedded tree, so that the claim theorems can relate the engine's
output to them. -/

/-- Does an import of `name` hit the KnowledgeTable? -/
def heavyKeyed (name : String) : Bool :=
  (CostAnalyzer.heavy_libraries.lookup (firstSegment name)).isSome

/-- All import events of a tree in traversal order: one `(module, line)` pair
per `Import` alias and per `ImportFrom` with a module. -/
def importEvents (tree : Node) : List (String × Nat) :=
  (walk tree).flatMap fun n =>
    match n with
    | .imp ln names _ => names.map fun nm => (nm, ln)
    | .impFrom ln (some m) _ => [(m, ln)]
    | _ => []

/-- The import events whose top-level name is a KnowledgeTable key. -/
def keyedImports (tree : Node) : List (String × Nat) :=
  (importEvents tree).filter fun p => heavyKeyed p.1

/-- The lines of all list-comprehension nodes, in traversal order. -/
def listCompLines (tree : Node) : List Nat :=
  (walk tree).flatMap fun n =>
    match n with
    | .listComp ln _ => [ln]
    | _ => []

/-- The lines of all containment tests (`x in y`), one entry per `ast.In`
operator, in traversal order. -/
def inTestLines (tree : Node) : List Nat :=
  (walk tree).flatMap fun n =>
    match n with
    | .compare ln ops _ => ops.flatMap fun op =>
        match op with
        | .inOp => [ln]
        | .otherCmp => []
    | _ => []

/-- Is a node an `ast.For` statement? -/
def isFor : Node → Bool
  | .forStmt _ _ => true
  | _ => false

/-- The lines of all additive augmented assignments (`x += y` with `ast.Add`)
in a tree, in traversal order. -/
def augAddLines (tree : Node) : List Nat :=
  (walk tree).flatMap fun n =>
    match n with
    | .augAssign ln .add _ => [ln]
    | _ => []

/-- The memory-pattern diagnostic `_check_memory_patterns` emits at a line. -/
def memDiag (file : String) (ln : Nat) : Diagnostic :=
  { file := file
    line := ln
    issue := "Potential string concatenation in loop"
    impact := "Creates new string objects each iteration (O(n²) memory)"
    suggestion := "Use list.append() and \"\".join() for better memory efficiency"
    type := "memory_pattern" }

/-! ## Concrete inputs used by the theorems below -/

/-- The diagnostic the heavy-import rule produces for a keyed module. -/
def importDiag (file lib_name : String) (line_no : Nat) : Diagnostic :=
  let base_lib := firstSegment lib_name
  let lib_info := (CostAnalyzer.heavy_libraries.lookup base_lib).getD ⟨"", [], []⟩
  { file := file
    line := line_no
    issue := "Heavy import: " ++ lib_name
    impact := "Increases memory footprint and cold-start time (Library is "
                ++ lib_info.weight ++ ")"
    suggestion := "Consider lighter alternatives: "
                ++ String.intercalate ", " lib_info.alternatives
    type := "import_optimization"
    library := some base_lib }

/-- Unit `import pandas.core.frame` on line 1 (dotted path, keyed top-level
segment `pandas`). -/
def c1tree : Node := .other 1 (nl [.imp 1 ["pandas.core.frame"] (nl [])])

/-- The unit
`result = ""` / `for item in range(10):` / `    result = result + str(item)` —
a plain-form add-and-assign (`ast.Assign` whose value is a `BinOp`/`Add`)
directly inside a loop body. -/
def c2tree : Node :=
  .other 1 (nl
    [.assign 1 (nl [.other 1 (nl []), .other 1 (nl [])]),
     .forStmt 2 (nl
       [.other 2 (nl []), .other 2 (nl []),
        .assign 3 (nl [.other 3 (nl []), .other 3 (nl [])])])])

/-- Nested `for` loops (lines 2 and 3) whose innermost body is
`result += str(item)` on line 4. -/
def c3tree : Node :=
  .other 1 (nl
    [.forStmt 2 (nl
      [.other 2 (nl []), .other 2 (nl []),
       .forStmt 3 (nl
         [.other 3 (nl []), .other 3 (nl []),
          .augAssign 4 .add (nl [.other 4 (nl []), .other 4 (nl [])])])])])

/-- A tower of `k` nested `for` statements (all at line `ln`) around one `x += y`. -/
def nestedFor (ln : Nat) : Nat → Node
  | 0 => .augAssign ln .add .nil
  | k + 1 => .forStmt ln (.cons (nestedFor ln k) .nil)

/-- Unit `m.py`: a list comprehension on line 1, `import pandas` on line 2. -/
def c4tree : Node :=
  .other 1 (nl
    [.assign 1 (nl [.other 1 (nl []), .listComp 1 (nl [])]),
     .imp 2 ["pandas"] (nl [])])

/-- Unit with two independent list comprehensions, on lines 1 and 2. -/
def c5tree : Node :=
  .other 1 (nl
    [.assign 1 (nl [.other 1 (nl []), .listComp 1 (nl [])]),
     .assign 2 (nl [.other 2 (nl []), .listComp 2 (nl [])])])

/-- Unit with one chained containment test `a in b in c` on line 2. -/
def c6tree : Node :=
  .other 1 (nl
    [.other 2 (nl
      [.compare 2 [COp.inOp, COp.inOp]
        (nl [.other 2 (nl []), .other 2 (nl []), .other 2 (nl [])])])])

/-- Unit `good.py`: `import pandas` on line 1. -/
def c7good : SourceUnit := ⟨"good.py", some (.other 1 (nl [.imp 1 ["pandas"] (nl [])]))⟩

/-- Unit `app.py`: one list comprehension on line 1. -/
def c8unit : SourceUnit :=
  ⟨"app.py", some (.other 1 (nl [.assign 1 (nl [.other 1 (nl []), .listComp 1 (nl [])])]))⟩

def c8cost : CostAnalyzer.State := ⟨[c8unit], []⟩

def c8opt : CodeOptimizer.State := ⟨"memory", [c8unit], []⟩

def fs9 : Fs := fun _ => []

def d9 : Diagnostic :=
  { file := "a.py", line := 0, issue := "i", impact := "m", suggestion := "s",
    type := "data_structure" }

def fsW : Fs := fun _ => ["nums = [x for x in data]"]

def dW : Diagnostic :=
  { file := "w.py", line := 1, issue := "i", impact := "m", suggestion := "s",
    type := "data_structure" }

/-! ## Walk lemmas -/

theorem depthOf_toList : (cs : NodeList) → depthOf cs.toList = cs.depthList
  | .nil => rfl
  | .cons n ns => by
      simp [NodeList.toList, depthOf, NodeList.depthList, depthOf_toList ns]

theorem depth_eq (n : Node) : n.depth = 1 + depthOf n.children := by
  cases n <;> simp [Node.depth, Node.children, depthOf_toList]

theorem depth_pos (n : Node) : 1 ≤ n.depth := by
  rw [depth_eq]; omega

theorem depthOf_append (l₁ l₂ : List Node) :
    depthOf (l₁ ++ l₂) = max (depthOf l₁) (depthOf l₂) := by
  induction l₁ with
  | nil => simp [depthOf]
  | cons n ns ih => simp [depthOf, ih, Nat.max_assoc]

theorem depthOf_eq_zero {l : List Node} (h : depthOf l = 0) : l = [] := by
  cases l with
  | nil => rfl
  | cons n ns =>
    exfalso
    have := depth_pos n
    simp [depthOf] at h
    omega

theorem depthOf_flatMap_children (l : List Node) (hl : l ≠ []) :
    depthOf (l.flatMap Node.children) + 1 ≤ depthOf l := by
  induction l with
  | nil => exact absurd rfl hl
  | cons n ns ih =>
    have hn : depthOf n.children + 1 ≤ n.depth := by rw [depth_eq]; omega
    cases ns with
    | nil => simpa [depthOf] using hn
    | cons m ms =>
      have := ih (by simp)
      simp only [List.flatMap_cons, depthOf_append, depthOf] at *
      omega

theorem bfs_nil (fuel : Nat) : bfs fuel [] = [] := by
  induction fuel with
  | zero => rfl
  | succ f ih => simp [bfs, ih]

/-- Extra fuel beyond the maximal depth of the queue does not change the
breadth-first sequence. -/
theorem bfs_fuel_eq (fuel : Nat) (l : List Node) (h : depthOf l ≤ fuel) :
    bfs (fuel + 1) l = bfs fuel l := by
  induction fuel generalizing l with
  | zero =>
    have : l = [] := depthOf_eq_zero (Nat.le_zero.mp h)
    subst this
    simp [bfs]
  | succ f ih =>
    by_cases hl : l = []
    · subst hl; simp [bfs_nil]
    · have hd := depthOf_flatMap_children l hl
      have e1 : bfs (f + 1 + 1) l = l ++ bfs (f + 1) (l.flatMap Node.children) := rfl
      have e2 : bfs (f + 1) l = l ++ bfs f (l.flatMap Node.children) := rfl
      rw [e1, e2, ih (l.flatMap Node.children) (by omega)]

theorem bfs_fuel_ge (l : List Node) {f₁ f₂ : Nat}
    (h₁ : depthOf l ≤ f₁) (h₂ : f₁ ≤ f₂) : bfs f₂ l = bfs f₁ l := by
  induction f₂ with
  | zero =>
    have : f₁ = 0 := Nat.le_zero.mp h₂
    subst this; rfl
  | succ f ih =>
    rcases Nat.lt_or_ge f₁ (f + 1) with hlt | hge
    · have hle : f₁ ≤ f := Nat.lt_succ_iff.mp hlt
      rw [bfs_fuel_eq f l (le_trans h₁ hle), ih hle]
    · have : f₁ = f + 1 := Nat.le_antisymm h₂ hge
      subst this; rfl

/-- Unfolding of `walk`: the node itself, then the breadth-first sequence of
its children run with exactly enough fuel. -/
theorem walk_eq (n : Node) :
    walk n = n :: bfs (depthOf n.children) n.children := by
  unfold walk
  rw [depth_eq n, Nat.add_comm 1 (depthOf n.children), bfs]
  simp

/-- A node with a single child: `ast.walk` of the node is the node followed
by the full walk of the child. -/
theorem walk_single (n c : Node) (h : n.children = [c]) :
    walk n = n :: walk c := by
  rw [walk_eq, h]
  unfold walk
  congr 1
  have : depthOf [c] = c.depth := by simp [depthOf]
  rw [this]

/-- A leaf node: `ast.walk` visits just the node. -/
theorem walk_leaf (n : Node) (h : n.children = []) : walk n = [n] := by
  rw [walk_eq, h, bfs_nil]

/-! ## Generic list lemmas -/

theorem flatMap_congr_mem {α β : Type} {l : List α} {f g : α → List β}
    (h : ∀ a ∈ l, f a = g a) : l.flatMap f = l.flatMap g := by
  induction l with
  | nil => rfl
  | cons a l ih =>
    simp only [List.flatMap_cons, h a (by simp)]
    rw [ih fun x hx => h x (by simp [hx])]

theorem flatMap_filter {α β : Type} (p : α → Bool) (f : α → List β) (l : List α)
    (h : ∀ a, p a = false → f a = []) :
    l.flatMap f = (l.filter p).flatMap f := by
  induction l with
  | nil => rfl
  | cons a l ih =>
    cases hp : p a with
    | false => simp [List.filter_cons, hp, h a hp, ih]
    | true => simp [List.filter_cons, hp, ih]

theorem foldl_append_flatMap {α β : Type} (g : α → List β) (l : List α) (acc : List β) :
    l.foldl (fun acc a => acc ++ g a) acc = acc ++ l.flatMap g := by
  induction l generalizing acc with
  | nil => simp
  | cons a l ih => simp [List.foldl_cons, ih, List.flatMap_cons]

/-! ## C1: the heavy-import rule -/

theorem check_library_usage_not_keyed {nm : String} (h : heavyKeyed nm = false)
    (file : String) (ln : Nat) :
    CostAnalyzer.check_library_usage file nm ln = [] := by
  unfold heavyKeyed at h
  unfold CostAnalyzer.check_library_usage
  cases hl : CostAnalyzer.heavy_libraries.lookup (firstSegment nm) with
  | none => simp [hl]
  | some info => rw [hl] at h; simp at h

theorem check_library_usage_keyed {nm : String} (h : heavyKeyed nm = true)
    (file : String) (ln : Nat) :
    CostAnalyzer.check_library_usage file nm ln = [importDiag file nm ln] := by
  unfold heavyKeyed at h
  rw [Option.isSome_iff_exists] at h
  obtain ⟨info, hinfo⟩ := h
  unfold CostAnalyzer.check_library_usage importDiag
  simp [hinfo]

/-- Bridge: `_check_imports` is one `_check_library_usage` call per import
event, in traversal order. -/
theorem check_imports_eq (file : String) (tree : Node) :
    CostAnalyzer.check_imports file tree =
      (importEvents tree).flatMap fun p =>
        CostAnalyzer.check_library_usage file p.1 p.2 := by
  unfold CostAnalyzer.check_imports importEvents
  rw [List.flatMap_assoc]
  apply flatMap_congr_mem
  intro n _
  cases n with
  | imp ln names cs => simp [List.flatMap_map]
  | impFrom ln m cs => cases m <;> simp
  | assign ln cs => simp
  | augAssign ln op cs => simp
  | forStmt ln cs => simp
  | listComp ln cs => simp
  | compare ln ops cs => simp
  | other ln cs => simp

theorem lookup_keys {k : String} (h : (CostAnalyzer.heavy_libraries.lookup k).isSome) :
    k = "pandas" ∨ k = "numpy" ∨ k = "requests" := by
  by_cases h1 : k = "pandas"
  · exact Or.inl h1
  by_cases h2 : k = "numpy"
  · exact Or.inr (Or.inl h2)
  by_cases h3 : k = "requests"
  · exact Or.inr (Or.inr h3)
  exfalso
  have e1 : (k == "pandas") = false := by simp [h1]
  have e2 : (k == "numpy") = false := by simp [h2]
  have e3 : (k == "requests") = false := by simp [h3]
  have : CostAnalyzer.heavy_libraries.lookup k = none := by
    simp [CostAnalyzer.heavy_libraries, List.lookup, e1, e2, e3]
  rw [this] at h
  simp at h

/-- C1: a source unit whose only KnowledgeTable-keyed import event is
`(name, ln)` yields exactly one heavy-import diagnostic; its `library` field
is the first dot-separated segment of `name`, never the full dotted path. -/
theorem heavy_import_unique (file name : String) (ln : Nat) (tree : Node)
    (h : keyedImports tree = [(name, ln)]) :
    ∃ d : Diagnostic,
      CostAnalyzer.check_imports file tree = [d] ∧
      d.library = some (firstSegment name) ∧
      d.line = ln ∧
      d.type = "import_optimization" ∧
      (strContains name '.' = true → d.library ≠ some name) := by
  have hk : heavyKeyed name = true := by
    have hmem : (name, ln) ∈ keyedImports tree := by rw [h]; simp
    unfold keyedImports at hmem
    exact (List.mem_filter.mp hmem).2
  have hb : CostAnalyzer.check_imports file tree =
      (keyedImports tree).flatMap fun p =>
        CostAnalyzer.check_library_usage file p.1 p.2 := by
    rw [check_imports_eq]
    exact flatMap_filter _ _ _ fun p hp => check_library_usage_not_keyed hp file p.2
  rw [h] at hb
  simp only [List.flatMap_cons, List.flatMap_nil, List.append_nil] at hb
  rw [check_library_usage_keyed hk file ln] at hb
  refine ⟨importDiag file name ln, hb, rfl, rfl, rfl, ?_⟩
  intro hdot heq
  have hfs : firstSegment name = name := by
    have : some (firstSegment name) = some name := heq
    exact Option.some.inj this
  have hkeys : firstSegment name = "pandas" ∨ firstSegment name = "numpy"
      ∨ firstSegment name = "requests" := by
    apply lookup_keys
    unfold heavyKeyed at hk
    exact hk
  rw [hfs] at hkeys
  rcases hkeys with h1 | h1 | h1 <;> rw [h1] at hdot <;> exact absurd hdot (by decide)

theorem heavy_import_unique_witness :
    keyedImports c1tree = [("pandas.core.frame", 1)] ∧
    ∃ d : Diagnostic,
      CostAnalyzer.check_imports "app.py" c1tree = [d] ∧
      d.library = some (firstSegment "pandas.core.frame") ∧
      d.line = 1 ∧
      d.type = "import_optimization" ∧
      (strContains "pandas.core.frame" '.' = true → d.library ≠ some "pandas.core.frame") :=
  ⟨by decide, heavy_import_unique "app.py" "pandas.core.frame" 1 c1tree (by decide)⟩

/-! ## C2: the loop-accumulation rule -/

theorem check_memory_patterns_eq (file : String) (tree : Node) :
    CostAnalyzer.check_memory_patterns file tree =
      ((walk tree).filter isFor).flatMap fun f =>
        (augAddLines f).map (memDiag file) := by
  unfold CostAnalyzer.check_memory_patterns
  rw [flatMap_filter isFor _ (walk tree) (fun n hn => by
    cases n <;> simp_all [isFor])]
  apply flatMap_congr_mem
  intro n hn
  have hf : isFor n = true := (List.mem_filter.mp hn).2
  cases n with
  | forStmt ln cs =>
      unfold augAddLines
      rw [List.map_flatMap]
      apply flatMap_congr_mem
      intro c _
      cases c with
      | augAssign cln op ccs => cases op <;> simp [memDiag]
      | imp _ _ _ => rfl
      | impFrom _ _ _ => rfl
      | assign _ _ => rfl
      | forStmt _ _ => rfl
      | listComp _ _ => rfl
      | compare _ _ _ => rfl
      | other _ _ => rfl
  | imp _ _ _ => simp [isFor] at hf
  | impFrom _ _ _ => simp [isFor] at hf
  | assign _ _ => simp [isFor] at hf
  | augAssign _ _ _ => simp [isFor] at hf
  | listComp _ _ => simp [isFor] at hf
  | compare _ _ _ => simp [isFor] at hf
  | other _ _ => simp [isFor] at hf

/-- C2 (counterexample): the claim requires a diagnostic at line 3 of
`c2tree` (a plain `x = x + y` directly inside a loop body), but the whole
analysis of the unit emits no diagnostic at all: `_check_memory_patterns`
matches only `ast.AugAssign`, never `ast.Assign`. -/
theorem loop_accumulation_plain_form_cex :
    CostAnalyzer.analyze_file "ex2.py" (some c2tree) = [] := rfl

/-- C2 (amended): the loop-accumulation rule fires on augmented add-assigns
(`x += y`, i.e. `ast.AugAssign` with `ast.Add`) only — never on the plain
form `x = x + y` — and it fires once per *enclosing* `for` statement at any
nesting depth (not only when the statement is directly inside the loop
body), each time at the statement's line. -/
theorem loop_accumulation_shape (file : String) (tree : Node) :
    CostAnalyzer.check_memory_patterns file tree =
      ((walk tree).filter isFor).flatMap fun f =>
        (augAddLines f).map (memDiag file) :=
  check_memory_patterns_eq file tree

/-! ## C3: deduplication of (unit, line, rule) triples -/

/-- C3 (counterexample): analyzing `c3tree` produces two diagnostics with the
identical (source unit, line, rule identifier) triple
`("ex3.py", 4, "memory_pattern")` — one per enclosing loop — so the
no-duplicate invariant is violated. -/
theorem no_dedup_cex :
    ¬ List.Pairwise
        (fun a b : Diagnostic => (a.file, a.line, a.type) ≠ (b.file, b.line, b.type))
        (CostAnalyzer.analyze_file "ex3.py" (some c3tree)) := by decide

theorem walk_nestedFor (ln : Nat) (k : Nat) :
    walk (nestedFor ln (k + 1)) = nestedFor ln (k + 1) :: walk (nestedFor ln k) := by
  apply walk_single
  rfl

theorem augAddLines_nestedFor (ln : Nat) (k : Nat) :
    augAddLines (nestedFor ln k) = [ln] := by
  induction k with
  | zero => rfl
  | succ k ih =>
    unfold augAddLines at *
    rw [walk_nestedFor]
    simp only [List.flatMap_cons, nestedFor]
    rw [ih]
    simp

theorem no_dedup_memory (file : String) (ln : Nat) (k : Nat) :
    CostAnalyzer.check_memory_patterns file (nestedFor ln k) = List.replicate k (memDiag file ln) := by
  induction k with
  | zero => rfl
  | succ k ih =>
    rw [check_memory_patterns_eq, walk_nestedFor]
    simp only [List.filter_cons, show isFor (nestedFor ln (k + 1)) = true from rfl,
      if_pos, List.flatMap_cons]
    rw [← check_memory_patterns_eq, ih, augAddLines_nestedFor]
    simp [List.replicate_succ]

/-- C3 (amended): diagnostics are never deduplicated.  An additive augmented
assignment nested inside `k` `for` statements yields `k` copies of the same
(unit, line, rule) diagnostic, and a chained containment test
(`ast.Compare` with several `ast.In` operators) yields one identical
diagnostic per `in` operator under the speed goal. -/
theorem no_dedup_duplicates (file : String) (ln : Nat) (k : Nat) (ops : List COp) :
    CostAnalyzer.check_memory_patterns file (nestedFor ln k)
      = List.replicate k (memDiag file ln) ∧
    (CodeOptimizer.check_speed_optimizations file (.compare ln ops .nil)).length
      = (ops.filter (fun op => op == COp.inOp)).length := by
  refine ⟨no_dedup_memory file ln k, ?_⟩
  unfold CodeOptimizer.check_speed_optimizations
  rw [walk_leaf _ (show (Node.compare ln ops .nil).children = [] from rfl)]
  simp only [List.flatMap_cons, List.flatMap_nil, List.append_nil]
  induction ops with
  | nil => rfl
  | cons op ops ih =>
    cases op <;> simp_all [List.filter_cons]

/-! ## C4: ordering of the diagnostic list -/

/-- C4 (counterexample): on `c4tree` the run returns the import diagnostic
(line 2) before the comprehension diagnostic (line 1).  Any list ordered by
(source unit identifier, line number) ascending is in particular
`Pairwise (same file → line ≤ line)`; the run's output violates that, so it
is not so ordered. -/
theorem run_not_sorted_cex :
    ¬ List.Pairwise
        (fun a b : Diagnostic => a.file = b.file → a.line ≤ b.line)
        (CostAnalyzer.analyze ⟨[⟨"m.py", some c4tree⟩], []⟩).2 := by decide

/-- C4 (amended): `analyze()` applies no sorting at all.  Its output is the
previously accumulated `self.results` followed by each unit's diagnostics in
unit-processing order, and within one unit the diagnostics come in check
order — imports, then data structures, then memory patterns — each in
tree-walk order. -/
theorem run_order_structure (s : CostAnalyzer.State) :
    (CostAnalyzer.analyze s).2
      = s.results ++ s.units.flatMap (fun u => CostAnalyzer.analyze_file u.file u.parsed) ∧
    ∀ file tree,
      CostAnalyzer.analyze_file file (some tree)
        = CostAnalyzer.check_imports file tree
            ++ CostAnalyzer.check_data_structures file tree
            ++ CostAnalyzer.check_memory_patterns file tree := by
  exact ⟨foldl_append_flatMap _ s.units s.results, fun _ _ => rfl⟩

/-! ## Type tags of each check's diagnostics -/

theorem check_library_usage_type {d : Diagnostic} {file nm : String} {ln : Nat}
    (hd : d ∈ CostAnalyzer.check_library_usage file nm ln) :
    d.type = "import_optimization" := by
  simp only [CostAnalyzer.check_library_usage] at hd
  split at hd
  · simp at hd; rw [hd]
  · simp at hd

theorem check_imports_type {d : Diagnostic} {file : String} {tree : Node}
    (hd : d ∈ CostAnalyzer.check_imports file tree) :
    d.type = "import_optimization" := by
  unfold CostAnalyzer.check_imports at hd
  simp only [List.mem_flatMap] at hd
  obtain ⟨n, _, hn⟩ := hd
  cases n with
  | imp ln names cs =>
      simp only [List.mem_flatMap] at hn
      obtain ⟨nm, _, hnm⟩ := hn
      exact check_library_usage_type hnm
  | impFrom ln m cs =>
      cases m with
      | none => simp at hn
      | some mm =>
          have hn' : d ∈ CostAnalyzer.check_library_usage file mm ln := hn
          exact check_library_usage_type hn'
  | assign _ _ => simp at hn
  | augAssign _ _ _ => simp at hn
  | forStmt _ _ => simp at hn
  | listComp _ _ => simp at hn
  | compare _ _ _ => simp at hn
  | other _ _ => simp at hn

theorem check_data_structures_type {d : Diagnostic} {file : String} {tree : Node}
    (hd : d ∈ CostAnalyzer.check_data_structures file tree) :
    d.type = "data_structure" := by
  unfold CostAnalyzer.check_data_structures at hd
  simp only [List.mem_flatMap] at hd
  obtain ⟨n, _, hn⟩ := hd
  cases n <;> simp at hn
  rw [hn]

theorem check_memory_patterns_type {d : Diagnostic} {file : String} {tree : Node}
    (hd : d ∈ CostAnalyzer.check_memory_patterns file tree) :
    d.type = "memory_pattern" := by
  unfold CostAnalyzer.check_memory_patterns at hd
  simp only [List.mem_flatMap] at hd
  obtain ⟨n, _, hn⟩ := hd
  cases n <;> simp at hn
  obtain ⟨c, _, hc⟩ := hn
  cases c with
  | augAssign ln op cs => cases op <;> simp at hc; rw [hc]
  | imp _ _ _ => simp at hc
  | impFrom _ _ _ => simp at hc
  | assign _ _ => simp at hc
  | forStmt _ _ => simp at hc
  | listComp _ _ => simp at hc
  | compare _ _ _ => simp at hc
  | other _ _ => simp at hc

theorem check_speed_type {d : Diagnostic} {file : String} {tree : Node}
    (hd : d ∈ CodeOptimizer.check_speed_optimizations file tree) :
    d.type = "speed" := by
  unfold CodeOptimizer.check_speed_optimizations at hd
  simp only [List.mem_flatMap] at hd
  obtain ⟨n, _, hn⟩ := hd
  cases n <;> simp at hn
  obtain ⟨op, _, hop⟩ := hn
  cases op <;> simp at hop
  rw [hop]

theorem check_memory_opt_type {d : Diagnostic} {file : String} {tree : Node}
    (hd : d ∈ CodeOptimizer.check_memory_optimizations file tree) :
    d.type = "memory" := by
  unfold CodeOptimizer.check_memory_optimizations at hd
  simp only [List.mem_flatMap] at hd
  obtain ⟨n, _, hn⟩ := hd
  cases n <;> simp at hn
  rw [hn]

/-! ## C5: eager-collection diagnostics -/

theorem check_data_structures_lines (file : String) (tree : Node) :
    (CostAnalyzer.check_data_structures file tree).map (fun d => d.line)
      = listCompLines tree := by
  unfold CostAnalyzer.check_data_structures listCompLines
  rw [List.map_flatMap]
  apply flatMap_congr_mem
  intro n _
  cases n <;> rfl

theorem check_memory_opt_lines (file : String) (tree : Node) :
    (CodeOptimizer.check_memory_optimizations file tree).map (fun d => d.line)
      = listCompLines tree := by
  unfold CodeOptimizer.check_memory_optimizations listCompLines
  rw [List.map_flatMap]
  apply flatMap_congr_mem
  intro n _
  cases n <;> rfl

theorem analyze_file_filter_ds (file : String) (tree : Node) :
    (CostAnalyzer.analyze_file file (some tree)).filter
        (fun d => d.type == "data_structure")
      = CostAnalyzer.check_data_structures file tree := by
  have e : CostAnalyzer.analyze_file file (some tree)
      = CostAnalyzer.check_imports file tree
          ++ CostAnalyzer.check_data_structures file tree
          ++ CostAnalyzer.check_memory_patterns file tree := rfl
  have h1 : (CostAnalyzer.check_imports file tree).filter
      (fun d => d.type == "data_structure") = [] :=
    List.filter_eq_nil_iff.mpr fun d hd => by rw [check_imports_type hd]; decide
  have h2 : (CostAnalyzer.check_data_structures file tree).filter
      (fun d => d.type == "data_structure")
        = CostAnalyzer.check_data_structures file tree :=
    List.filter_eq_self.mpr fun d hd => by rw [check_data_structures_type hd]; decide
  have h3 : (CostAnalyzer.check_memory_patterns file tree).filter
      (fun d => d.type == "data_structure") = [] :=
    List.filter_eq_nil_iff.mpr fun d hd => by rw [check_memory_patterns_type hd]; decide
  rw [e, List.filter_append, List.filter_append, h1, h2, h3]
  simp

/-- C5: a unit with `N` comprehensions on pairwise distinct lines yields
exactly `N` eager-collection diagnostics, one at each comprehension's line,
with pairwise distinct lines — both for the cost engine
(`_check_data_structures`, category `data_structure`) and under the memory
goal (`_check_memory_optimizations`, category `memory`). -/
theorem eager_collection_counts (file : String) (tree : Node)
    (h : (listCompLines tree).Nodup) :
    ((CostAnalyzer.analyze_file file (some tree)).filter
        (fun d => d.type == "data_structure")).map (fun d => d.line)
      = listCompLines tree ∧
    ((CostAnalyzer.analyze_file file (some tree)).filter
        (fun d => d.type == "data_structure")).length
      = (listCompLines tree).length ∧
    (((CostAnalyzer.analyze_file file (some tree)).filter
        (fun d => d.type == "data_structure")).map (fun d => d.line)).Nodup ∧
    (CodeOptimizer.analyze_file "memory" file (some tree)).map (fun d => d.line)
      = listCompLines tree ∧
    ((CodeOptimizer.analyze_file "memory" file (some tree)).map (fun d => d.line)).Nodup := by
  have hf := analyze_file_filter_ds file tree
  have hm : CodeOptimizer.analyze_file "memory" file (some tree)
      = CodeOptimizer.check_memory_optimizations file tree := by
    show (if ("memory" : String) = "speed"
            then CodeOptimizer.check_speed_optimizations file tree
          else if ("memory" : String) = "memory"
            then CodeOptimizer.check_memory_optimizations file tree
          else [])
        = CodeOptimizer.check_memory_optimizations file tree
    rw [if_neg (by decide), if_pos rfl]
  refine ⟨?_, ?_, ?_, ?_, ?_⟩
  · rw [hf, check_data_structures_lines]
  · rw [hf]
    have := congrArg List.length (check_data_structures_lines file tree)
    simpa using this
  · rw [hf, check_data_structures_lines]
    exact h
  · rw [hm, check_memory_opt_lines]
  · rw [hm, check_memory_opt_lines]
    exact h

theorem eager_collection_counts_witness :
    (listCompLines c5tree).Nodup ∧
    ((CostAnalyzer.analyze_file "m5.py" (some c5tree)).filter
        (fun d => d.type == "data_structure")).map (fun d => d.line)
      = listCompLines c5tree :=
  ⟨by decide, (eager_collection_counts "m5.py" c5tree (by decide)).1⟩

/-! ## C6: the membership-test rule is speed-goal-only -/

theorem check_speed_lines (file : String) (tree : Node) :
    (CodeOptimizer.check_speed_optimizations file tree).map (fun d => d.line)
      = inTestLines tree := by
  unfold CodeOptimizer.check_speed_optimizations inTestLines
  rw [List.map_flatMap]
  apply flatMap_congr_mem
  intro n _
  cases n with
  | compare ln ops cs =>
      rw [List.map_flatMap]
      apply flatMap_congr_mem
      intro op _
      cases op <;> rfl
  | imp _ _ _ => rfl
  | impFrom _ _ _ => rfl
  | assign _ _ => rfl
  | augAssign _ _ _ => rfl
  | forStmt _ _ => rfl
  | listComp _ _ => rfl
  | other _ _ => rfl

/-- C6: under the speed goal every containment test (one per `ast.In`
operator) yields exactly one `speed` diagnostic at the test's line; under
the memory goal every diagnostic is of category `memory`, and the cost
engine only emits categories `import_optimization` / `data_structure` /
`memory_pattern` — so no membership diagnostic is ever produced outside the
speed goal. -/
theorem membership_rule_speed_only (file : String) (tree : Node) :
    (CodeOptimizer.analyze_file "speed" file (some tree)).map (fun d => d.line)
      = inTestLines tree ∧
    (∀ d ∈ CodeOptimizer.analyze_file "speed" file (some tree), d.type = "speed") ∧
    (∀ d ∈ CodeOptimizer.analyze_file "memory" file (some tree), d.type = "memory") ∧
    (∀ d ∈ CostAnalyzer.analyze_file file (some tree),
        d.type = "import_optimization" ∨ d.type = "data_structure"
          ∨ d.type = "memory_pattern") := by
  have hs : CodeOptimizer.analyze_file "speed" file (some tree)
      = CodeOptimizer.check_speed_optimizations file tree := by
    show (if ("speed" : String) = "speed"
            then CodeOptimizer.check_speed_optimizations file tree
          else if ("speed" : String) = "memory"
            then CodeOptimizer.check_memory_optimizations file tree
          else [])
        = CodeOptimizer.check_speed_optimizations file tree
    rw [if_pos rfl]
  have hm : CodeOptimizer.analyze_file "memory" file (some tree)
      = CodeOptimizer.check_memory_optimizations file tree := by
    show (if ("memory" : String) = "speed"
            then CodeOptimizer.check_speed_optimizations file tree
          else if ("memory" : String) = "memory"
            then CodeOptimizer.check_memory_optimizations file tree
          else [])
        = CodeOptimizer.check_memory_optimizations file tree
    rw [if_neg (by decide), if_pos rfl]
  have e : CostAnalyzer.analyze_file file (some tree)
      = CostAnalyzer.check_imports file tree
          ++ CostAnalyzer.check_data_structures file tree
          ++ CostAnalyzer.check_memory_patterns file tree := rfl
  refine ⟨?_, ?_, ?_, ?_⟩
  · rw [hs, check_speed_lines]
  · rw [hs]
    exact fun d hd => check_speed_type hd
  · rw [hm]
    exact fun d hd => check_memory_opt_type hd
  · intro d hd
    rw [e] at hd
    rcases List.mem_append.mp hd with h1 | h1
    · rcases List.mem_append.mp h1 with h2 | h2
      · exact Or.inl (check_imports_type h2)
      · exact Or.inr (Or.inl (check_data_structures_type h2))
    · exact Or.inr (Or.inr (check_memory_patterns_type h1))

theorem membership_rule_witness :
    (CodeOptimizer.analyze_file "speed" "m6.py" (some c6tree)).map (fun d => d.line)
      = inTestLines c6tree :=
  (membership_rule_speed_only "m6.py" c6tree).1

/-! ## C7: parse failures -/

/-- C7 (counterexample): a run containing the unparseable unit `bad.py`
(`except SyntaxError: pass`) returns a list *and* a final analyzer state
identical to those of the run in which `bad.py` never existed; since these
are everything the caller can observe, no count or list of skipped units is
recorded — the skip is silently swallowed, contradicting the claim's
observability requirement. -/
theorem parse_failure_cex :
    (CostAnalyzer.analyze ⟨[⟨"bad.py", none⟩, c7good], []⟩).2
      = (CostAnalyzer.analyze ⟨[c7good], []⟩).2 ∧
    (CostAnalyzer.analyze ⟨[⟨"bad.py", none⟩, c7good], []⟩).1.results
      = (CostAnalyzer.analyze ⟨[c7good], []⟩).1.results ∧
    (CostAnalyzer.analyze ⟨[⟨"bad.py", none⟩, c7good], []⟩).2.length = 1 :=
  ⟨rfl, rfl, rfl⟩

/-- C7 (amended): a unit that fails to parse contributes zero diagnostics and
does not prevent diagnostics from the other units of the batch — but the
skip is *not* observable: the run's output equals, verbatim, the output of
the same run without the failing unit, in both engines. -/
theorem parse_failure_silent (goal file : String) (us vs : List SourceUnit)
    (acc : List Diagnostic) :
    (CostAnalyzer.analyze ⟨us ++ ⟨file, none⟩ :: vs, acc⟩).2
      = (CostAnalyzer.analyze ⟨us ++ vs, acc⟩).2 ∧
    (CodeOptimizer.analyze ⟨goal, us ++ ⟨file, none⟩ :: vs, acc⟩).2
      = (CodeOptimizer.analyze ⟨goal, us ++ vs, acc⟩).2 := by
  constructor
  · simp [CostAnalyzer.analyze, foldl_append_flatMap, CostAnalyzer.analyze_file]
  · simp [CodeOptimizer.analyze, foldl_append_flatMap, CodeOptimizer.analyze_file]

/-! ## C8: repeated calls to `analyze()` -/

/-- C8 (counterexample): calling `analyze()` twice on the same `CostAnalyzer`
instance does not return the same list: `self.results` is only reset in
`__init__`, so the second call appends a fresh copy of every diagnostic and
returns a list of twice the length. -/
theorem rerun_not_equal_cex :
    (CostAnalyzer.analyze (CostAnalyzer.analyze c8cost).1).2
      ≠ (CostAnalyzer.analyze c8cost).2 := by decide

/-- C8 (amended): on an analyzer instance with empty accumulated results, a
second `analyze()` call on unchanged input returns the first call's list
concatenated with itself (every diagnostic duplicated) rather than the same
list; this holds for both engines.  (A *fresh* instance per run is
deterministic: the embedding is a pure function of the state.) -/
theorem rerun_accumulates (s : CostAnalyzer.State) (t : CodeOptimizer.State)
    (hs : s.results = []) (ht : t.results = []) :
    (CostAnalyzer.analyze (CostAnalyzer.analyze s).1).2
      = (CostAnalyzer.analyze s).2 ++ (CostAnalyzer.analyze s).2 ∧
    (CodeOptimizer.analyze (CodeOptimizer.analyze t).1).2
      = (CodeOptimizer.analyze t).2 ++ (CodeOptimizer.analyze t).2 := by
  constructor
  · simp [CostAnalyzer.analyze, foldl_append_flatMap, hs]
  · simp [CodeOptimizer.analyze, foldl_append_flatMap, ht]

theorem rerun_accumulates_witness :
    (CostAnalyzer.analyze (CostAnalyzer.analyze c8cost).1).2
      = (CostAnalyzer.analyze c8cost).2 ++ (CostAnalyzer.analyze c8cost).2 ∧
    (CodeOptimizer.analyze (CodeOptimizer.analyze c8opt).1).2
      = (CodeOptimizer.analyze c8opt).2 ++ (CodeOptimizer.analyze c8opt).2 :=
  rerun_accumulates c8cost c8opt rfl rfl

/-! ## C9: the apply step -/

theorem apply_one_isSome (lines : List String) (r : Diagnostic) (hr : 1 ≤ r.line) :
    (CostAnalyzer.apply_one lines r).isSome = true := by
  simp only [CostAnalyzer.apply_one]
  split
  · split
    · rename_i hlt
      have h0 : ¬ ((r.line : Int) - 1 < 0) := by omega
      unfold pyGet
      rw [if_neg h0]
      have hn : ((r.line : Int) - 1).toNat < lines.length := by omega
      rw [List.get?_eq_get hn]
      simp
    · simp
  · simp

theorem apply_file_isSome (lines : List String) (rs : List Diagnostic)
    (h : ∀ r ∈ rs, 1 ≤ r.line) :
    (CostAnalyzer.apply_file lines rs).isSome = true := by
  induction rs with
  | nil => rfl
  | cons r rs ih =>
    unfold CostAnalyzer.apply_file
    have h1 := apply_one_isSome lines r (h r (by simp))
    rw [Option.isSome_iff_exists] at h1
    obtain ⟨a, ha⟩ := h1
    rw [ha]
    have h2 := ih fun x hx => h x (by simp [hx])
    rw [Option.isSome_iff_exists] at h2
    obtain ⟨b, hb⟩ := h2
    rw [hb]
    rfl

theorem mem_insert_desc {x r : Diagnostic} {l : List Diagnostic}
    (hx : x ∈ CostAnalyzer.insert_desc r l) : x = r ∨ x ∈ l := by
  induction l with
  | nil => simpa [CostAnalyzer.insert_desc] using hx
  | cons y ys ih =>
    unfold CostAnalyzer.insert_desc at hx
    split at hx
    · rcases List.mem_cons.mp hx with h1 | h1
      · exact Or.inl h1
      · exact Or.inr h1
    · rcases List.mem_cons.mp hx with h1 | h1
      · exact Or.inr (by simp [h1])
      · rcases ih h1 with h2 | h2
        · exact Or.inl h2
        · exact Or.inr (by simp [h2])

theorem mem_sort_desc_aux {x : Diagnostic} :
    ∀ (l acc : List Diagnostic),
      x ∈ l.foldl (fun acc r => CostAnalyzer.insert_desc r acc) acc → x ∈ acc ∨ x ∈ l
  | [], _, hx => Or.inl hx
  | r :: rs, acc, hx => by
      rcases mem_sort_desc_aux rs (CostAnalyzer.insert_desc r acc) hx with h1 | h1
      · rcases mem_insert_desc h1 with h2 | h2
        · exact Or.inr (by simp [h2])
        · exact Or.inl h2
      · exact Or.inr (by simp [h1])

theorem mem_sort_by_line_desc {x : Diagnostic} {l : List Diagnostic}
    (hx : x ∈ CostAnalyzer.sort_by_line_desc l) : x ∈ l := by
  rcases mem_sort_desc_aux l [] hx with h | h
  · simp at h
  · exact h

theorem apply_files_isSome (fs : Fs) (results : List Diagnostic)
    (h : ∀ r ∈ results, 1 ≤ r.line) (fps : List String) :
    (CostAnalyzer.apply_files fs results fps).isSome = true := by
  induction fps with
  | nil => rfl
  | cons fp fps ih =>
    simp only [CostAnalyzer.apply_files]
    have h1 : ∀ r ∈ CostAnalyzer.sort_by_line_desc
        (results.filter (fun r => r.file == fp)), 1 ≤ r.line := fun r hr =>
      h r (List.mem_filter.mp (mem_sort_by_line_desc hr)).1
    have h2 := apply_file_isSome (fs fp) _ h1
    rw [Option.isSome_iff_exists] at h2
    obtain ⟨a, ha⟩ := h2
    rw [ha]
    rw [Option.isSome_iff_exists] at ih
    obtain ⟨b, hb⟩ := ih
    rw [hb]
    rfl

/-- C9 (counterexample): a `data_structure` diagnostic citing line 0 of an
empty file defeats the guard (`line_idx = -1 < len(lines)` is true) and
makes `apply_optimizations` evaluate `lines[-1]` on an empty list, raising
an uncaught `IndexError` (`none`): the call returns no count at all, so the
claim's universal "for every diagnostic list" fails. -/
theorem apply_optimizations_raises_cex :
    CostAnalyzer.apply_optimizations fs9 [d9] = none := rfl

/-- C9 (amended): for every diagnostic list whose entries cite lines ≥ 1 (as
all engine-produced diagnostics do), `CostAnalyzer.apply_optimizations`
returns a count and hands the filesystem back unchanged — no file is ever
written — and `CodeOptimizer.apply_optimizations` returns `len(results)`
without touching any file. -/
theorem apply_counts_without_writing (fs : Fs) (results : List Diagnostic)
    (h : ∀ r ∈ results, 1 ≤ r.line) :
    (∃ n : Nat, CostAnalyzer.apply_optimizations fs results = some (n, fs)) ∧
    CodeOptimizer.apply_optimizations results = results.length := by
  refine ⟨?_, rfl⟩
  have h2 := apply_files_isSome fs results h (CostAnalyzer.file_order results)
  rw [Option.isSome_iff_exists] at h2
  obtain ⟨n, hn⟩ := h2
  exact ⟨n, by unfold CostAnalyzer.apply_optimizations; rw [hn]⟩

theorem apply_counts_witness :
    (∃ n : Nat, CostAnalyzer.apply_optimizations fsW [dW] = some (n, fsW)) ∧
    CodeOptimizer.apply_optimizations [dW] = [dW].length :=
  apply_counts_without_writing fsW [dW] (by decide)

/-! ## C10: unrecognized goals -/

/-- C10: a `CodeOptimizer` whose goal is neither `"speed"` nor `"memory"`
(e.g. `"cost"` or a misspelling) analyzes every unit without error and
returns the empty list — the goal is silently ignored, not rejected. -/
theorem unknown_goal_yields_empty (goal : String) (units : List SourceUnit)
    (h1 : goal ≠ "speed") (h2 : goal ≠ "memory") :
    (CodeOptimizer.analyze ⟨goal, units, []⟩).2 = [] := by
  have hfile : ∀ u : SourceUnit,
      CodeOptimizer.analyze_file goal u.file u.parsed = [] := by
    rintro ⟨f, _ | tree⟩
    · rfl
    · show (if goal = "speed" then CodeOptimizer.check_speed_optimizations f tree
            else if goal = "memory" then CodeOptimizer.check_memory_optimizations f tree
            else []) = []
      rw [if_neg h1, if_neg h2]
  simp only [CodeOptimizer.analyze, foldl_append_flatMap]
  induction units with
  | nil => rfl
  | cons u us ih => simpa [List.flatMap_cons, hfile u] using ih

theorem unknown_goal_witness :
    (CodeOptimizer.analyze ⟨"cost", [⟨"m10.py", some c4tree⟩], []⟩).2 = [] :=
  unknown_goal_yields_empty "cost" [⟨"m10.py", some c4tree⟩] (by decide) (by decide)
